import Mathlib

/-!
Verification of the ATS-Resume-Creator backend proxy (Express server and
serverless handler variants, `server.js` / `api/*.js`).

The development shallowly embeds the JavaScript code operating on decoded
JSON request/response bodies.  JSON values are modelled by the inductive
type `Json`.  JavaScript numbers are modelled by `JSNumber`: a rational
payload plus the special values `NaN`, `Infinity` and `-Infinity`
(JS comparison semantics for the specials are reproduced; finite doubles
are modelled by rationals).  A JavaScript property access `v.k` throws a
`TypeError` when `v` is `null`; such exceptions are modelled with
`Except Unit`.  The upstream `fetch` call is an oracle parameter: a
transport failure or a body whose JSON decoding throws is `Except.error`,
and a decoded upstream reply is `Except.ok (status, body)`.
`JSON.parse` (used only by the resume-parse reshaper) is likewise an
oracle parameter `decode : String → Option Json`.
`String.prototype.localeCompare` is modelled as signed codepoint-wise
lexicographic comparison (`localeCompare` below); the claims about the
model sort depend only on it being a total comparison keyed on the
display-name string.
-/

/-- Model of a JavaScript number: a rational, or one of the IEEE special
values `NaN`, `Infinity`, `-Infinity`. -/
inductive JSNumber where
  | num (q : ℚ)
  | nan
  | posInf
  | negInf
deriving DecidableEq

/-- JavaScript `<` on numbers: any comparison with `NaN` is false;
infinities compare as expected. -/
def JSNumber.jsLt : JSNumber → JSNumber → Bool
  | .num a, .num b => decide (a < b)
  | .nan, _ => false
  | _, .nan => false
  | .negInf, .negInf => false
  | .negInf, _ => true
  | _, .negInf => false
  | .posInf, _ => false
  | .num _, .posInf => true

/-- `Number.isInteger`: true only for a finite number with integral value. -/
def JSNumber.isInteger : JSNumber → Bool
  | .num q => q.den == 1
  | _ => false

/-- Model of a decoded JSON value (`undefined` is represented externally by
`Option` where property lookups can miss). -/
inductive Json where
  | null
  | bool (b : Bool)
  | num (n : JSNumber)
  | str (s : String)
  | arr (items : List Json)
  | obj (fields : List (String × Json))

/-- First-match lookup of a key in a JS object's field list. -/
def lookupField : List (String × Json) → String → Option Json
  | [], _ => none
  | (k, v) :: rest, key => if k == key then some v else lookupField rest key

/-- Property access `v.k` for a value already known to be non-`null`:
objects look the key up, primitives and arrays yield `undefined` (`none`)
for the property names this code reads. -/
def propNN (v : Json) (k : String) : Option Json :=
  match v with
  | .obj fields => lookupField fields k
  | _ => none

/-- Property access `v.k` with JS `TypeError` semantics: accessing a
property of `null` throws. -/
def getFieldE (v : Json) (k : String) : Except Unit (Option Json) :=
  match v with
  | .null => .error ()
  | _ => .ok (propNN v k)

/-- JavaScript truthiness of a value. -/
def truthy : Json → Bool
  | .null => false
  | .bool b => b
  | .num (.num q) => !decide (q = 0)
  | .num .nan => false
  | .num .posInf => true
  | .num .negInf => true
  | .str s => !(s == "")
  | .arr _ => true
  | .obj _ => true

/-- Truthiness of a possibly-`undefined` value. -/
def truthyOpt : Option Json → Bool
  | none => false
  | some v => truthy v

/-- JavaScript `x || d`: the left operand when truthy, otherwise `d`
(`none` models `undefined`). -/
def jsOr (v : Option Json) (d : Json) : Json :=
  match v with
  | none => d
  | some x => if truthy x then x else d

/-- Optional chaining `v?.k`: `undefined` when `v` is nullish, otherwise a
plain property access. -/
def optChainField (v : Option Json) (k : String) : Option Json :=
  match v with
  | none => none
  | some .null => none
  | some w => propNN w k

/-- Indexing `v[i]`: array element, object key `"i"`, or single character
of a string; `undefined` otherwise. -/
def indexJson (v : Json) (i : Nat) : Option Json :=
  match v with
  | .arr items => items.get? i
  | .obj fields => lookupField fields (Nat.repr i)
  | .str s => (s.data.get? i).map (fun c => Json.str (String.singleton c))
  | _ => none

/-- Whether a JSON value is a number (`typeof v === "number"`; `NaN` and the
infinities are numbers). -/
def isNumberJ : Json → Bool
  | .num _ => true
  | _ => false

/-- Whether a possibly-undefined value is a string. -/
def isStringOpt : Option Json → Bool
  | some (.str _) => true
  | _ => false

/-- JS comparison `v < (k : ℚ)` after the `typeof` guard; non-numbers compare
false here (reached only behind a number guard in the validator). -/
def jsLtQ (v : Json) (k : ℚ) : Bool :=
  match v with
  | .num x => x.jsLt (.num k)
  | _ => false

/-- JS comparison `(k : ℚ) < v`; non-numbers compare false here. -/
def jsGtQ (v : Json) (k : ℚ) : Bool :=
  match v with
  | .num x => (JSNumber.num k).jsLt x
  | _ => false

/-- The `.length` property compared against a bound, as in
`msg.content.length > 50000`.  Strings and arrays use their length; an
object is read at key `"length"` and compared when numeric.  (JS would
additionally coerce a non-numeric `length` property; such a value is
modelled as failing the comparison.) -/
def jsLenGT (v : Json) (bound : ℚ) : Bool :=
  match v with
  | .str s => decide (bound < (s.length : ℚ))
  | .arr items => decide (bound < (items.length : ℚ))
  | .obj fields =>
    match lookupField fields "length" with
    | some (.num x) => (JSNumber.num bound).jsLt x
    | _ => false
  | _ => false

/-- An apostrophe character, used in the literal violation strings. -/
def apos : String := String.singleton (Char.ofNat 39)

/-- Quote a word in apostrophes as the source's template literals do. -/
def quoted (s : String) : String := apos ++ s ++ apos

/-- Violation string for a bad role at message index `i`. -/
def roleMsg (i : Nat) : String :=
  "messages[" ++ (Nat.repr i ++ ("].role must be " ++ quoted "system" ++ ", " ++
    quoted "user" ++ ", or " ++ quoted "assistant"))

/-- Violation string for bad content at message index `i`. -/
def contentMsg (i : Nat) : String :=
  "messages[" ++ (Nat.repr i ++ "].content must be a non-empty string")

/-- Violation string for over-long content at message index `i`. -/
def lenMsg (i : Nat) : String :=
  "messages[" ++ (Nat.repr i ++ "].content exceeds maximum length of 50000 characters")

/-- Violation string for a non-string model. -/
def modelMsg : String := "model must be a string"

/-- Violation string for a bad temperature. -/
def tempMsg : String := "temperature must be a number between 0 and 2"

/-- Violation string for bad max_tokens. -/
def tokMsg : String := "max_tokens must be an integer between 1 and 4000"

/-- The failing condition of the per-message role check
`!msg.role || !['system', 'user', 'assistant'].includes(msg.role)`. -/
def roleBad (msg : Json) : Bool :=
  let r := propNN msg "role"
  !truthyOpt r ||
    !(match r with
      | some (.str s) => ["system", "user", "assistant"].contains s
      | _ => false)

/-- The failing condition of the per-message content check
`!msg.content || typeof msg.content !== 'string'`. -/
def contentBad (msg : Json) : Bool :=
  let c := propNN msg "content"
  !truthyOpt c || !isStringOpt c

/-- The failing condition of the per-message length check
`msg.content && msg.content.length > 50000`. -/
def lenBad (msg : Json) : Bool :=
  match propNN msg "content" with
  | none => false
  | some c => truthy c && jsLenGT c 50000

/-- Violations produced for the message at index `i`; accessing a property
of a `null` element throws. -/
def messageErrors (i : Nat) (msg : Json) : Except Unit (List String) :=
  match msg with
  | .null => .error ()
  | _ => .ok ((if roleBad msg then [roleMsg i] else []) ++
              ((if contentBad msg then [contentMsg i] else []) ++
               (if lenBad msg then [lenMsg i] else [])))

/-- The `forEach` over the messages array, accumulating violations in order. -/
def messagesErrorsAux (i : Nat) : List Json → Except Unit (List String)
  | [] => .ok []
  | m :: rest => do
    let e ← messageErrors i m
    let es ← messagesErrorsAux (i + 1) rest
    .ok (e ++ es)

/-- The failing condition of `body.model && typeof body.model !== 'string'`. -/
def modelBad (body : Json) : Bool :=
  let m := propNN body "model"
  truthyOpt m && !isStringOpt m

/-- The failing condition of the temperature check: present and
(not a number, or `< 0`, or `> 2`) under JS comparison semantics. -/
def tempBad (body : Json) : Bool :=
  match propNN body "temperature" with
  | none => false
  | some t => !isNumberJ t || jsLtQ t 0 || jsGtQ t 2

/-- The failing condition of the max_tokens check: present and
(not an integer, or `< 1`, or `> 4000`). -/
def tokBad (body : Json) : Bool :=
  match propNN body "max_tokens" with
  | none => false
  | some t =>
    !(match t with
      | .num x => x.isInteger
      | _ => false) || jsLtQ t 1 || jsGtQ t 4000

/-- The messages-section violations: non-array, empty array, or the
per-element checks. -/
def messagesSection (mv : Option Json) : Except Unit (List String) :=
  match mv with
  | some (.arr []) => .ok ["messages array cannot be empty"]
  | some (.arr ms) => messagesErrorsAux 0 ms
  | _ => .ok ["messages must be an array"]

/-- `validateChatRequest` from `server.js`: accumulates every violation of
the chat request body, in source order.  A thrown `TypeError` (property
access on `null`) is `Except.error`. -/
def validateChatRequest (body : Json) : Except Unit (List String) := do
  let mv ← getFieldE body "messages"
  let msgsErrs ← messagesSection mv
  let _ ← getFieldE body "model"
  let _ ← getFieldE body "temperature"
  let _ ← getFieldE body "max_tokens"
  .ok (msgsErrs ++
       ((if modelBad body then [modelMsg] else []) ++
        ((if tempBad body then [tempMsg] else []) ++
         (if tokBad body then [tokMsg] else []))))

/-- The fixed fallback model identifier. -/
def defaultModel : String := "meta-llama/llama-3.1-8b-instruct:free"

/-- `model || 'meta-llama/llama-3.1-8b-instruct:free'`: the model actually
sent upstream, identical in the chat and parse-resume handlers. -/
def selectedModelOf (modelV : Option Json) : Json :=
  jsOr modelV (.str defaultModel)

/-- Whether `response.ok` holds for an HTTP status. -/
def isOkStatus (s : Nat) : Bool := 200 ≤ s && s ≤ 299

/-- Body of a 500 `SERVER_ERROR` reply. -/
def serverErrorBody (msg : String) : Json :=
  .obj [("error", .str msg), ("code", .str "SERVER_ERROR")]

/-- Body of the models route's catch-all 500 reply. -/
def connectionErrorBody : Json :=
  .obj [("error", .str "Failed to connect to OpenRouter API"), ("code", .str "CONNECTION_ERROR")]

/-- Reply body for a non-2xx upstream status:
`{ error: error.error?.message || fallback, code: 'OPENROUTER_ERROR' }`;
reading `.error` of a `null` upstream body throws. -/
def openRouterErrorBody (data : Json) (fallback : String) : Except Unit Json := do
  let e ← getFieldE data "error"
  .ok (.obj [("error", jsOr (optChainField e "message") (.str fallback)),
             ("code", .str "OPENROUTER_ERROR")])

/-- `data.choices?.[0]?.message?.content`: throws only when `data` itself is
`null` (the chain guards every later step). -/
def chainContent (data : Json) : Except Unit (Option Json) := do
  let choices ← getFieldE data "choices"
  .ok (match choices with
       | none => none
       | some .null => none
       | some c =>
         match indexJson c 0 with
         | none => none
         | some .null => none
         | some c0 => optChainField (propNN c0 "message") "content")

/-- Field list of the JSON payload `{ model, messages, temperature,
max_tokens }` forwarded to the upstream chat-completions endpoint
(destructuring defaults 0.6 / 1000 apply only when the key is absent). -/
def chatPayloadFields (messagesV modelV tempV tokV : Option Json) : List (String × Json) :=
  [("model", selectedModelOf modelV)] ++
  (match messagesV with
   | some m => [("messages", m)]
   | none => []) ++
  [("temperature", tempV.getD (.num (.num (6 / 10)))),
   ("max_tokens", tokV.getD (.num (.num 1000)))]

/-- Success reply of the chat route: `{ success, content, model, usage }`,
where `content` is the extracted choice text defaulted to `""` and `usage`
is passed through verbatim (omitted from the serialized body when the
upstream reply has no such key). -/
def chatOkBody (sel : Json) (data : Json) : Except Unit Json := do
  let contentOpt ← chainContent data
  .ok (.obj ([("success", .bool true),
              ("content", jsOr contentOpt (.str "")),
              ("model", sel)] ++
             (match propNN data "usage" with
              | some u => [("usage", u)]
              | none => [])))

/-- The `try` block of the chat route: build the payload, call upstream,
reshape.  `Except.error` is anything the enclosing `catch` would receive. -/
def chatTryBlock (fetch : Json → Except Unit (Nat × Json)) (body : Json) :
    Except Unit (Nat × Json) := do
  let messagesV ← getFieldE body "messages"
  let modelV ← getFieldE body "model"
  let tempV ← getFieldE body "temperature"
  let tokV ← getFieldE body "max_tokens"
  let sel := selectedModelOf modelV
  match fetch (.obj (chatPayloadFields messagesV modelV tempV tokV)) with
  | .error _ => .error ()
  | .ok (status, data) =>
    if isOkStatus status then do
      let b ← chatOkBody sel data
      .ok (200, b)
    else do
      let b ← openRouterErrorBody data "AI request failed"
      .ok (status, b)

/-- The `POST /api/chat` route handler: validation (400 on violations), then
the try block with its catch mapped to a 500 `SERVER_ERROR` reply.  The
outer `Except.error` is a validation-time `TypeError`, which escapes the
route handler. -/
def chatHandler (fetch : Json → Except Unit (Nat × Json)) (body : Json) :
    Except Unit (Nat × Json) := do
  let errs ← validateChatRequest body
  if errs.isEmpty then
    .ok (match chatTryBlock fetch body with
         | .ok r => r
         | .error _ => (500, serverErrorBody "Failed to process AI request"))
  else
    .ok (400, .obj [("error", .str "Invalid request"),
                    ("details", .arr (errs.map Json.str)),
                    ("code", .str "VALIDATION_ERROR")])

/-- Signed codepoint-wise lexicographic comparison of character lists. -/
def strCmpL : List Char → List Char → Int
  | [], [] => 0
  | [], _ :: _ => -1
  | _ :: _, [] => 1
  | a :: as, b :: bs =>
    if a.toNat < b.toNat then -1
    else if b.toNat < a.toNat then 1
    else strCmpL as bs

/-- Model of `String.prototype.localeCompare` (see the header comment). -/
def localeCompare (s t : String) : Int := strCmpL s.data t.data

/-- `isPre pat l` decides whether `pat` is a prefix of `l`. -/
def isPre : List Char → List Char → Bool
  | [], _ => true
  | _ :: _, [] => false
  | a :: as, b :: bs => a == b && isPre as bs

/-- `hasInfix pat l` decides whether `pat` occurs contiguously in `l`
(`String.prototype.includes`). -/
def hasInfix (pat : List Char) : List Char → Bool
  | [] => isPre pat []
  | c :: t => isPre pat (c :: t) || hasInfix pat t

/-- `s.includes(pat)`. -/
def strIncludes (s pat : String) : Bool := hasInfix pat.data s.data

/-- An upstream model entry as read by the models route: a string `id`, an
optional truthy-string display name (`none` models an absent or falsy
`name`, which falls back to `id`), and the `pricing?.prompt` /
`pricing?.completion` values when they are strings. -/
structure ModelEntry where
  id : String
  name : Option String
  pricingPrompt : Option String
  pricingCompletion : Option String
deriving DecidableEq

/-- The free-tier test used by both the comparator and the summary:
`m.id.includes(':free') || (m.pricing?.prompt === '0' && m.pricing?.completion === '0')`. -/
def isFree (m : ModelEntry) : Bool :=
  strIncludes m.id ":free" ||
    (m.pricingPrompt == some "0" && m.pricingCompletion == some "0")

/-- `m.name || m.id`. -/
def displayName (m : ModelEntry) : String :=
  match m.name with
  | some s => s
  | none => m.id

/-- The sort comparator of the models route: free before non-free, ties by
display name. -/
def modelCmp (a b : ModelEntry) : Int :=
  if isFree a && !isFree b then -1
  else if !isFree a && isFree b then 1
  else localeCompare (displayName a) (displayName b)

/-- Stable insertion of `x` into a sorted list: `x` is placed before the
first element it does not compare strictly after. -/
def jsInsert (c : α → α → Int) (x : α) : List α → List α
  | [] => [x]
  | y :: ys => if c x y ≤ 0 then x :: y :: ys else y :: jsInsert c x ys

/-- Stable sort by a JS-style comparator, modelling `Array.prototype.sort`
(stable per the ECMAScript specification). -/
def jsSort (c : α → α → Int) : List α → List α
  | [] => []
  | x :: xs => jsInsert c x (jsSort c xs)

/-- One entry of the processed reply of the models route. -/
structure ModelSummary where
  id : String
  name : String
  isFree : Bool
deriving DecidableEq

/-- `{ id, name: m.name || m.id, isFree }`. -/
def summaryOf (m : ModelEntry) : ModelSummary :=
  ⟨m.id, displayName m, isFree m⟩

/-- The processed model page: sort, truncate to 50, project. -/
def processModels (ms : List ModelEntry) : List ModelSummary :=
  ((jsSort modelCmp ms).take 50).map summaryOf

/-- JSON form of a model summary. -/
def summaryJson (s : ModelSummary) : Json :=
  .obj [("id", .str s.id), ("name", .str s.name), ("isFree", .bool s.isFree)]

/-- Success reply of the models route; `totalCount` is the length of the
full upstream list, not of the truncated page. -/
def modelsOkResponse (ms : List ModelEntry) : Nat × Json :=
  (200, .obj [("success", .bool true),
              ("models", .arr ((processModels ms).map summaryJson)),
              ("totalCount", .num (.num (ms.length : ℚ)))])

/-- Read one element of `data.data` as a model entry.  Entries on which the
route's field accesses would throw (`null`, a missing or non-string `id`)
are `Except.error`. -/
def entryOfJson (j : Json) : Except Unit ModelEntry :=
  match j with
  | .obj f =>
    match lookupField f "id" with
    | some (.str id) => do
      let name ←
        match lookupField f "name" with
        | some v =>
          if truthy v then
            match v with
            | .str s => Except.ok (some s)
            | _ => Except.error ()
          else Except.ok none
        | none => Except.ok none
      let pricing :=
        match lookupField f "pricing" with
        | some (.obj pf) =>
          ((match lookupField pf "prompt" with
            | some (.str s) => some s
            | _ => none),
           (match lookupField pf "completion" with
            | some (.str s) => some s
            | _ => none))
        | _ => (none, none)
      Except.ok ⟨id, name, pricing.1, pricing.2⟩
    | _ => Except.error ()
  | _ => Except.error ()

/-- `data.data || []` followed by elementwise reading; a truthy non-array
`data.data` (whose `.sort` would throw) is `Except.error`. -/
def modelListOfJson (data : Json) : Except Unit (List ModelEntry) := do
  let dv ← getFieldE data "data"
  match jsOr dv (.arr []) with
  | .arr items => items.mapM entryOfJson
  | _ => .error ()

/-- The `try` block of the models route. -/
def modelsTry (fetch : Except Unit (Nat × Json)) : Except Unit (Nat × Json) :=
  match fetch with
  | .error _ => .error ()
  | .ok (status, data) =>
    if isOkStatus status then do
      let ms ← modelListOfJson data
      .ok (modelsOkResponse ms)
    else do
      let b ← openRouterErrorBody data "Failed to fetch models"
      .ok (status, b)

/-- The `GET /api/models` route handler: the whole body is inside `try`,
whose `catch` answers 500 `CONNECTION_ERROR`. -/
def modelsHandler (fetch : Except Unit (Nat × Json)) : Nat × Json :=
  match modelsTry fetch with
  | .ok r => r
  | .error _ => (500, connectionErrorBody)

/-- The span matched by the greedy regex `/\x7b[\s\S]*\x7d/`: from the first
opening brace through the last closing brace after it, or no match. -/
def extractBraceSpanL (l : List Char) : Option (List Char) :=
  match l.dropWhile (fun c => !(c == '{')) with
  | [] => none
  | c :: rest =>
    match rest.reverse.dropWhile (fun d => !(d == '}')) with
    | [] => none
    | revPart => some (c :: revPart.reverse)

/-- String form of `extractBraceSpanL` (`content.match(/\x7b[\s\S]*\x7d/)`). -/
def extractBraceSpan (s : String) : Option String :=
  (extractBraceSpanL s.data).map String.mk

/-- The resume-parse reshaper applied to the model's raw text `content`:
extract the brace span, decode it, and build the HTTP reply
(`decode` is the `JSON.parse` oracle; `none` models a thrown
`SyntaxError`). -/
def parseReshape (decode : String → Option Json) (content : String) : Nat × Json :=
  match extractBraceSpan content with
  | none =>
    (422, .obj [("error", .str "AI response did not contain valid JSON"),
                ("code", .str "PARSE_ERROR"),
                ("rawContent", .str content)])
  | some span =>
    match decode span with
    | some parsed =>
      (200, .obj [("success", .bool true), ("data", parsed), ("method", .str "ai")])
    | none =>
      (422, .obj [("error", .str "Failed to parse AI response as JSON"),
                  ("code", .str "PARSE_ERROR"),
                  ("rawContent", .str content)])

/-- The fixed system prompt of the resume parser. -/
def parseSystemMessage : String :=
  "You are a precise resume parser. You extract structured data from resume text and return valid JSON only. You follow instructions exactly."

/-- The fixed user prompt embedding the first 12,000 characters of the
resume text (`text.substring(0, 12000)`; the long literal JSON-schema
template between the marker lines is abbreviated here — no claim depends
on its exact wording). -/
def parseUserMessage (t : String) : String :=
  "Parse this resume and extract all information into JSON format.\n\n=== RESUME TEXT ===\n" ++
  t.take 12000 ++
  "\n=== END RESUME TEXT ===\n\nEXTRACT AND RETURN THIS EXACT JSON STRUCTURE:\n\n" ++
  "\x7b ... \x7d\n\nRULES: ... OUTPUT: Valid JSON only, nothing else."

/-- Field list of the payload the parse-resume route forwards upstream. -/
def parsePayloadFields (modelV : Option Json) (t : String) : List (String × Json) :=
  [("model", selectedModelOf modelV),
   ("messages", .arr [.obj [("role", .str "system"), ("content", .str parseSystemMessage)],
                      .obj [("role", .str "user"), ("content", .str (parseUserMessage t))]]),
   ("temperature", .num (.num (3 / 10))),
   ("max_tokens", .num (.num 2000))]

/-- The `try` block of the parse-resume route.  A non-string extracted
content (on which `.match` would throw) is `Except.error`. -/
def parseTryBlock (fetch : Json → Except Unit (Nat × Json))
    (decode : String → Option Json) (modelV : Option Json) (t : String) :
    Except Unit (Nat × Json) := do
  match fetch (.obj (parsePayloadFields modelV t)) with
  | .error _ => .error ()
  | .ok (status, data) =>
    if isOkStatus status then do
      let contentOpt ← chainContent data
      match jsOr contentOpt (.str "") with
      | .str c => .ok (parseReshape decode c)
      | _ => .error ()
    else do
      let b ← openRouterErrorBody data "AI parsing failed"
      .ok (status, b)

/-- The `POST /api/parse-resume` route handler: text validation (400), then
the try block with its catch mapped to 500 `SERVER_ERROR`. -/
def parseResumeHandler (fetch : Json → Except Unit (Nat × Json))
    (decode : String → Option Json) (body : Json) : Except Unit (Nat × Json) := do
  let textV ← getFieldE body "text"
  let modelV ← getFieldE body "model"
  match textV with
  | some (.str t) =>
    if t == "" then
      .ok (400, .obj [("error", .str "Resume text is required"),
                      ("code", .str "VALIDATION_ERROR")])
    else if 100000 < t.length then
      .ok (400, .obj [("error", .str "Resume text exceeds maximum length"),
                      ("code", .str "VALIDATION_ERROR")])
    else
      .ok (match parseTryBlock fetch decode modelV t with
           | .ok r => r
           | .error _ => (500, serverErrorBody "Failed to parse resume"))
  | _ =>
    .ok (400, .obj [("error", .str "Resume text is required"),
                    ("code", .str "VALIDATION_ERROR")])

/-- Inversion for a successful `Except` bind. -/
theorem exceptBindOk {α β : Type} {e : Except Unit α} {f : α → Except Unit β} {r : β}
    (h : (e >>= f) = .ok r) : ∃ v, e = .ok v ∧ f v = .ok r := by
  cases e with
  | error u => simp [Bind.bind, Except.bind] at h
  | ok v => exact ⟨v, rfl, by simpa [Bind.bind, Except.bind] using h⟩

/-- On a non-`null` value, a guarded field access returns the plain lookup. -/
theorem getFieldE_ok {v : Json} (k : String) (h : v ≠ .null) :
    getFieldE v k = .ok (propNN v k) := by
  cases v <;> simp [getFieldE] at h ⊢

/-- The validator, unfolded on a non-`null` body. -/
theorem validate_unfold {body : Json} (h : body ≠ .null) :
    validateChatRequest body =
      (messagesSection (propNN body "messages")).bind (fun msgsErrs =>
        .ok (msgsErrs ++
          ((if modelBad body then [modelMsg] else []) ++
           ((if tempBad body then [tempMsg] else []) ++
            (if tokBad body then [tokMsg] else []))))) := by
  unfold validateChatRequest
  rw [getFieldE_ok "messages" h, getFieldE_ok "model" h,
      getFieldE_ok "temperature" h, getFieldE_ok "max_tokens" h]
  cases hms : messagesSection (propNN body "messages") with
  | error u => simp [Bind.bind, Except.bind, hms]
  | ok es => simp [Bind.bind, Except.bind, hms]

/-- A validator run that returns at all has a non-`null` body. -/
theorem validate_ok_ne_null {body : Json} {errs : List String}
    (h : validateChatRequest body = .ok errs) : body ≠ .null := by
  intro hn
  subst hn
  simp [validateChatRequest, getFieldE, Bind.bind, Except.bind] at h

/-- Number of failing per-message checks. -/
def violCount (msg : Json) : Nat :=
  (if roleBad msg then 1 else 0) +
  ((if contentBad msg then 1 else 0) + (if lenBad msg then 1 else 0))

/-- Total number of failing per-message checks over a messages array. -/
def violCountList : List Json → Nat
  | [] => 0
  | m :: ms => violCount m + violCountList ms

/-- Number of failing body-level checks (model, temperature, max_tokens). -/
def tailCount (body : Json) : Nat :=
  (if modelBad body then 1 else 0) +
  ((if tempBad body then 1 else 0) + (if tokBad body then 1 else 0))

/-- On a non-`null` message the validator emits exactly the failing
per-message rules, in source order. -/
theorem messageErrors_ok {msg : Json} (i : Nat) (h : msg ≠ .null) :
    messageErrors i msg =
      .ok ((if roleBad msg then [roleMsg i] else []) ++
           ((if contentBad msg then [contentMsg i] else []) ++
            (if lenBad msg then [lenMsg i] else []))) := by
  cases msg <;> first | exact absurd rfl h | rfl

/-- On a non-`null` message the number of violations is the number of
failing rules. -/
theorem messageErrors_length {msg : Json} (i : Nat) (h : msg ≠ .null) :
    ∃ es, messageErrors i msg = .ok es ∧ es.length = violCount msg :=
  ⟨_, messageErrors_ok i h, by
    unfold violCount
    split <;> split <;> split <;> simp⟩

/-- The `forEach` over non-`null` messages succeeds, emitting one violation
per failing rule and index. -/
theorem messagesErrorsAux_ok {ms : List Json} (h : ∀ m ∈ ms, m ≠ .null) :
    ∀ i, ∃ es, messagesErrorsAux i ms = .ok es ∧ es.length = violCountList ms := by
  induction ms with
  | nil => intro i; exact ⟨[], rfl, rfl⟩
  | cons m rest ih =>
    intro i
    obtain ⟨e1, he1, hl1⟩ := messageErrors_length i (h m (by simp))
    obtain ⟨e2, he2, hl2⟩ := ih (fun x hx => h x (by simp [hx])) (i + 1)
    refine ⟨e1 ++ e2, ?_, by simp [hl1, hl2, violCountList]⟩
    simp [messagesErrorsAux, he1, he2, Bind.bind, Except.bind]

/-- The messages section on a non-empty array of non-`null` messages. -/
theorem messagesSection_ok {ms : List Json} (hne : ms ≠ [])
    (h : ∀ m ∈ ms, m ≠ .null) :
    ∃ es, messagesSection (some (.arr ms)) = .ok es ∧
      es.length = violCountList ms := by
  cases ms with
  | nil => exact absurd rfl hne
  | cons m rest =>
    obtain ⟨es, hes, hl⟩ := messagesErrorsAux_ok h 0
    exact ⟨es, hes, hl⟩

/-- A successful validator run splits into the messages-section violations
followed by the three body-level checks. -/
theorem validate_ok_split {body : Json} {errs : List String}
    (h : validateChatRequest body = .ok errs) :
    ∃ msgsErrs, messagesSection (propNN body "messages") = .ok msgsErrs ∧
      errs = msgsErrs ++
        ((if modelBad body then [modelMsg] else []) ++
         ((if tempBad body then [tempMsg] else []) ++
          (if tokBad body then [tokMsg] else []))) := by
  have hb := validate_ok_ne_null h
  rw [validate_unfold hb] at h
  cases hms : messagesSection (propNN body "messages") with
  | error u => rw [hms] at h; simp [Except.bind] at h
  | ok es =>
    rw [hms] at h
    simp only [Except.bind] at h
    exact ⟨es, rfl, by injection h with h'; exact h'.symm⟩

/-- C2: chat-request validation enumerates all violations rather than
stopping at the first.  Part 1: for a messages array containing exactly one
entry with role "bogus" and content "", the validator returns exactly the
two index-0 violations (role, then non-empty-string content), in order.
Part 2: for every non-`null` body whose messages field is a non-empty array
of non-`null` elements, validation succeeds and the number of returned
violation strings equals the number of violated rules summed over the
message indices plus the failing body-level checks — nothing is dropped,
deduplicated, or cut short. -/
theorem chat_validation_enumerates :
    (validateChatRequest
        (.obj [("messages", .arr [.obj [("role", .str "bogus"), ("content", .str "")]])]) =
      .ok [roleMsg 0, contentMsg 0])
    ∧ (∀ (body : Json) (ms : List Json), body ≠ .null →
        propNN body "messages" = some (.arr ms) → ms ≠ [] →
        (∀ m ∈ ms, m ≠ .null) →
        ∃ errs, validateChatRequest body = .ok errs ∧
          errs.length = violCountList ms + tailCount body) := by
  constructor
  · rfl
  · intro body ms hb hm hne hnn
    obtain ⟨msgsErrs, hms, hlen⟩ := messagesSection_ok hne hnn
    refine ⟨msgsErrs ++
      ((if modelBad body then [modelMsg] else []) ++
       ((if tempBad body then [tempMsg] else []) ++
        (if tokBad body then [tokMsg] else []))), ?_, ?_⟩
    · rw [validate_unfold hb, hm, hms]
      rfl
    · simp only [List.length_append, hlen, tailCount]
      split <;> split <;> split <;> simp

/-- Witness for C2 at the concrete single-bad-message body. -/
theorem chat_validation_enumerates_witness :
    ∃ errs,
      validateChatRequest
          (.obj [("messages", .arr [.obj [("role", .str "bogus"), ("content", .str "")]])]) =
        .ok errs ∧
      errs.length =
        violCountList [.obj [("role", .str "bogus"), ("content", .str "")]] +
        tailCount (.obj [("messages", .arr [.obj [("role", .str "bogus"), ("content", .str "")]])]) :=
  chat_validation_enumerates.2 _ _
    (fun h => Json.noConfusion h) rfl
    (fun h => List.noConfusion h)
    (by
      intro m hm
      simp only [List.mem_singleton] at hm
      subst hm
      exact fun h => Json.noConfusion h)

/-- A message object with a legal role and legal content fails none of the
three per-message checks. -/
theorem messageErrors_good {mf : List (String × Json)} {r c : String} (i : Nat)
    (hr : lookupField mf "role" = some (.str r))
    (hrm : r ∈ (["system", "user", "assistant"] : List String))
    (hc : lookupField mf "content" = some (.str c))
    (hcne : c ≠ "") (hclen : c.length ≤ 50000) :
    messageErrors i (.obj mf) = .ok [] := by
  have hrole : roleBad (.obj mf) = false := by
    simp only [List.mem_cons, List.not_mem_nil, or_false] at hrm
    rcases hrm with rfl | rfl | rfl <;>
      (simp [roleBad, propNN, hr]; decide)
  have hcontent : contentBad (.obj mf) = false := by
    simp [contentBad, propNN, hc, truthyOpt, truthy, isStringOpt, hcne]
  have hlen : lenBad (.obj mf) = false := by
    have : ¬((50000 : ℚ) < (c.length : ℚ)) := by
      rw [not_lt]
      exact_mod_cast hclen
    simp [lenBad, propNN, hc, jsLenGT, this]
  rw [messageErrors_ok i (fun h => Json.noConfusion h)]
  rw [hrole, hcontent, hlen]
  rfl

/-- C5: every chat request body satisfying all the documented validation
rules (non-empty messages array of objects with legal roles and non-empty
string contents of length at most 50,000; model absent or a string;
temperature absent or a rational in [0,2]; max_tokens absent or an integer
in [1,4000]) produces an empty violation list. -/
theorem chat_validation_accepts_valid :
    ∀ (bf : List (String × Json)) (ms : List Json),
      lookupField bf "messages" = some (.arr ms) → ms ≠ [] →
      (∀ m ∈ ms, ∃ mf r c, m = .obj mf ∧
          lookupField mf "role" = some (.str r) ∧
          r ∈ (["system", "user", "assistant"] : List String) ∧
          lookupField mf "content" = some (.str c) ∧ c ≠ "" ∧ c.length ≤ 50000) →
      (lookupField bf "model" = none ∨ ∃ s, lookupField bf "model" = some (.str s)) →
      (lookupField bf "temperature" = none ∨
        ∃ q : ℚ, lookupField bf "temperature" = some (.num (.num q)) ∧ 0 ≤ q ∧ q ≤ 2) →
      (lookupField bf "max_tokens" = none ∨
        ∃ n : ℤ, lookupField bf "max_tokens" = some (.num (.num (n : ℚ))) ∧
          1 ≤ n ∧ n ≤ 4000) →
      validateChatRequest (.obj bf) = .ok [] := by
  intro bf ms hm hne hgood hmodel htemp htok
  have hb : (Json.obj bf) ≠ .null := fun h => Json.noConfusion h
  have haux : ∀ (sub : List Json), (∀ m ∈ sub, m ∈ ms) →
      ∀ i, messagesErrorsAux i sub = .ok [] := by
    intro sub
    induction sub with
    | nil => intro _ i; rfl
    | cons m rest ih =>
      intro hsub i
      obtain ⟨mf, r, c, rfl, hr, hrm, hc, hcne, hclen⟩ := hgood m (hsub m (by simp))
      have h1 := messageErrors_good i hr hrm hc hcne hclen
      have h2 := ih (fun x hx => hsub x (by simp [hx])) (i + 1)
      simp [messagesErrorsAux, h1, h2, Bind.bind, Except.bind]
  have hms : messagesSection (propNN (.obj bf) "messages") = .ok [] := by
    show messagesSection (lookupField bf "messages") = .ok []
    rw [hm]
    cases ms with
    | nil => exact absurd rfl hne
    | cons m rest => exact haux _ (fun x hx => hx) 0
  have hmodelBad : modelBad (.obj bf) = false := by
    rcases hmodel with h | ⟨s, h⟩
    · simp [modelBad, propNN, h, truthyOpt]
    · simp [modelBad, propNN, h, isStringOpt]
  have htempBad : tempBad (.obj bf) = false := by
    rcases htemp with h | ⟨q, h, h0, h2⟩
    · simp [tempBad, propNN, h]
    · have hlt : ¬(q < 0) := not_lt.mpr h0
      have hgt : ¬((2 : ℚ) < q) := not_lt.mpr h2
      simp [tempBad, propNN, h, isNumberJ, jsLtQ, jsGtQ, JSNumber.jsLt, hlt, hgt]
  have htokBad : tokBad (.obj bf) = false := by
    rcases htok with h | ⟨n, h, h1, h4⟩
    · simp [tokBad, propNN, h]
    · have hden : ((n : ℚ)).den = 1 := Rat.den_intCast n
      have hlt : ¬((n : ℚ) < 1) := by
        rw [not_lt]
        exact_mod_cast h1
      have hgt : ¬((4000 : ℚ) < (n : ℚ)) := by
        rw [not_lt]
        exact_mod_cast h4
      simp [tokBad, propNN, h, JSNumber.isInteger, hden, jsLtQ, jsGtQ,
            JSNumber.jsLt, hlt, hgt]
  rw [validate_unfold hb]
  show (messagesSection (lookupField bf "messages")).bind _ = _
  rw [show lookupField bf "messages" = propNN (.obj bf) "messages" from rfl, hms]
  simp [Except.bind, hmodelBad, htempBad, htokBad]

/-- Witness for C5 at a concrete fully-valid body. -/
theorem chat_validation_accepts_valid_witness :
    validateChatRequest
        (.obj [("messages", .arr [.obj [("role", .str "user"), ("content", .str "hi")]]),
               ("model", .str "m"),
               ("temperature", .num (.num 1)),
               ("max_tokens", .num (.num ((2 : ℤ) : ℚ)))]) = .ok [] :=
  chat_validation_accepts_valid _ _ rfl (fun h => List.noConfusion h)
    (by
      intro m hm
      simp only [List.mem_singleton] at hm
      subst hm
      exact ⟨_, "user", "hi", rfl, rfl, by simp, rfl, by decide, by decide⟩)
    (Or.inr ⟨"m", rfl⟩)
    (Or.inr ⟨1, rfl, by norm_num, by norm_num⟩)
    (Or.inr ⟨2, rfl, by norm_num, by norm_num⟩)

/-- Counterexample for C6: `temperature: NaN` is present and is not a number
in [0, 2], yet the validator returns an empty violation list — under JS
semantics `typeof NaN === 'number'` and both `NaN < 0` and `NaN > 2` are
false, so the check passes. -/
theorem temperature_nan_counterexample :
    propNN (.obj [("messages", .arr [.obj [("role", .str "user"), ("content", .str "hi")]]),
                  ("temperature", .num .nan)]) "temperature" = some (.num .nan)
    ∧ validateChatRequest
        (.obj [("messages", .arr [.obj [("role", .str "user"), ("content", .str "hi")]]),
               ("temperature", .num .nan)]) = .ok []
    ∧ tempMsg ∉ ([] : List String) :=
  ⟨rfl, rfl, List.not_mem_nil tempMsg⟩

/-- C6 (amended): if temperature is present and is either not a number, a
finite number outside [0, 2], or an infinity — i.e. anything the claim
covers except `NaN`, which passes the JS comparisons — then the violation
string is in the validator's output. -/
theorem temperature_violation_amended :
    ∀ (body : Json) (errs : List String) (t : Json),
      validateChatRequest body = .ok errs →
      propNN body "temperature" = some t →
      ((∀ x, t ≠ .num x) ∨ (∃ q : ℚ, t = .num (.num q) ∧ (q < 0 ∨ 2 < q)) ∨
        t = .num .posInf ∨ t = .num .negInf) →
      tempMsg ∈ errs := by
  intro body errs t hv ht hcase
  have hbad : tempBad body = true := by
    unfold tempBad
    rw [ht]
    rcases hcase with h | ⟨q, rfl, hq⟩ | rfl | rfl
    · cases t with
      | num x => exact absurd rfl (h x)
      | null => rfl
      | bool b => rfl
      | str s => rfl
      | arr l => rfl
      | obj f => rfl
    · rcases hq with hq | hq <;>
        simp [isNumberJ, jsLtQ, jsGtQ, JSNumber.jsLt, hq]
    · rfl
    · rfl
  obtain ⟨msgsErrs, _, rfl⟩ := validate_ok_split hv
  rw [hbad]
  simp [List.mem_append]

/-- Witness for the amended C6: a present non-number temperature yields the
violation. -/
theorem temperature_violation_amended_witness :
    tempMsg ∈ [tempMsg] :=
  temperature_violation_amended
    (.obj [("messages", .arr [.obj [("role", .str "user"), ("content", .str "hi")]]),
           ("temperature", .str "hot")])
    [tempMsg] (.str "hot") rfl rfl
    (Or.inl (fun _ h => Json.noConfusion h))

/-- Counterexample for C7: a messages array containing `null` makes the
validator throw a `TypeError` (reading `.role` of `null`) instead of
returning a violation list. -/
theorem validator_null_element_counterexample :
    validateChatRequest (.obj [("messages", .arr [.null])]) = .error () := rfl

/-- C7 (amended): the validator neither throws nor fails for any non-`null`
body whose messages array (when it is one) contains no `null` element; a
`null` body or a `null` messages element raises a `TypeError`. -/
theorem validator_total_amended :
    ∀ body : Json, body ≠ .null →
      (∀ ms, propNN body "messages" = some (.arr ms) → Json.null ∉ ms) →
      ∃ errs, validateChatRequest body = .ok errs := by
  intro body hb hms
  have hsec : ∃ es, messagesSection (propNN body "messages") = .ok es := by
    cases hmv : propNN body "messages" with
    | none => exact ⟨_, rfl⟩
    | some v =>
      cases v with
      | arr ms =>
        cases ms with
        | nil => exact ⟨_, rfl⟩
        | cons m rest =>
          have hnn : ∀ x ∈ m :: rest, x ≠ .null := by
            intro x hx hxn
            subst hxn
            exact hms (m :: rest) hmv hx
          obtain ⟨es, hes, _⟩ := messagesErrorsAux_ok hnn 0
          exact ⟨es, hes⟩
      | null => exact ⟨_, rfl⟩
      | bool b => exact ⟨_, rfl⟩
      | num n => exact ⟨_, rfl⟩
      | str s => exact ⟨_, rfl⟩
      | obj f => exact ⟨_, rfl⟩
  obtain ⟨es, hes⟩ := hsec
  exact ⟨es ++
    ((if modelBad body then [modelMsg] else []) ++
     ((if tempBad body then [tempMsg] else []) ++
      (if tokBad body then [tokMsg] else []))),
    by rw [validate_unfold hb, hes]; rfl⟩

/-- Witness for the amended C7 at a body with no messages field. -/
theorem validator_total_amended_witness :
    ∃ errs, validateChatRequest (.obj []) = .ok errs :=
  validator_total_amended (.obj []) (fun h => Json.noConfusion h)
    (fun _ h => Option.noConfusion h)

/-- Two strings differing at character position `n` differ. -/
theorem ne_of_data_get {s t : String} (n : Nat)
    (h : s.data[n]? ≠ t.data[n]?) : s ≠ t :=
  fun he => h (by rw [he])

/-- No string extending the per-message prefix `messages[` equals a string
whose second character is not `e`. -/
theorem msgBracket_ne (x : String) (t : String)
    (h : t.data[1]? ≠ some 'e') : "messages[" ++ x ≠ t := by
  apply ne_of_data_get 1
  rw [show ("messages[" ++ x).data = "messages[".data ++ x.data from rfl]
  rw [List.getElem?_append_left (by decide)]
  exact fun he => h (by rw [← he]; rfl)

/-- Every string the messages section can emit is one of the two fixed
array-level strings or has the `messages[` prefix. -/
theorem messagesErrorsAux_strings {ms : List Json} :
    ∀ {i : Nat} {es : List String}, messagesErrorsAux i ms = .ok es →
      ∀ s ∈ es, ∃ x, s = "messages[" ++ x := by
  induction ms with
  | nil =>
    intro i es h s hs
    injection h with h'
    rw [← h'] at hs
    exact absurd hs (List.not_mem_nil s)
  | cons m rest ih =>
    intro i es h s hs
    obtain ⟨e1, he1, hrest⟩ := exceptBindOk h
    obtain ⟨e2, he2, hok⟩ := exceptBindOk hrest
    injection hok with hok'
    rw [← hok'] at hs
    rcases List.mem_append.mp hs with h1 | h2
    · have hm : m ≠ .null := by
        intro hn
        subst hn
        simp [messageErrors] at he1
      rw [messageErrors_ok i hm] at he1
      injection he1 with he1'
      rw [← he1'] at h1
      rcases List.mem_append.mp h1 with ha | hb
      · have hs' : s = roleMsg i := by
          by_cases hcb : roleBad m <;> simp [hcb] at ha
          exact ha
        rw [hs']
        exact ⟨_, rfl⟩
      · rcases List.mem_append.mp hb with hc | hd
        · have hs' : s = contentMsg i := by
            by_cases hcb : contentBad m <;> simp [hcb] at hc
            exact hc
          rw [hs']
          exact ⟨_, rfl⟩
        · have hs' : s = lenMsg i := by
            by_cases hlb : lenBad m <;> simp [hlb] at hd
            exact hd
          rw [hs']
          exact ⟨_, rfl⟩
    · exact ih he2 s h2

/-- Strings emitted by the whole messages section. -/
theorem messagesSection_strings {mv : Option Json} {es : List String}
    (h : messagesSection mv = .ok es) :
    ∀ s ∈ es, s = "messages must be an array" ∨
      s = "messages array cannot be empty" ∨ ∃ x, s = "messages[" ++ x := by
  intro s hs
  unfold messagesSection at h
  match mv with
  | some (.arr []) =>
    injection h with h'
    rw [← h'] at hs
    simp at hs
    exact Or.inr (Or.inl hs)
  | some (.arr (m :: rest)) =>
    exact Or.inr (Or.inr (messagesErrorsAux_strings h s hs))
  | none | some .null | some (.bool _) | some (.num _) | some (.str _) | some (.obj _) =>
    injection h with h'
    rw [← h'] at hs
    simp at hs
    exact Or.inl hs

/-- A successful guarded field access is the plain lookup. -/
theorem getFieldE_ok_inv {v : Json} {k : String} {mv : Option Json}
    (h : getFieldE v k = .ok mv) : propNN v k = mv := by
  cases v with
  | null => exact Except.noConfusion h
  | bool b => injection h
  | num n => injection h
  | str s => injection h
  | arr l => injection h
  | obj f => injection h

/-- C10: when the model field is present but falsy (empty string, `null`,
`0`, `false`) — or absent — validation emits no model violation, and both
the chat payload and the parse-resume payload carry the default free-tier
model, exactly as if the field were absent: the non-string check applies
only to truthy values. -/
theorem falsy_model_defaults :
    ∀ (body : Json) (mv : Option Json),
      getFieldE body "model" = .ok mv →
      (mv = none ∨ ∃ v, mv = some v ∧ truthy v = false) →
      selectedModelOf mv = .str defaultModel
      ∧ (∀ messagesV tempV tokV,
          lookupField (chatPayloadFields messagesV mv tempV tokV) "model" =
            some (.str defaultModel))
      ∧ (∀ t, lookupField (parsePayloadFields mv t) "model" = some (.str defaultModel))
      ∧ (∀ errs, validateChatRequest body = .ok errs → modelMsg ∉ errs) := by
  intro body mv hget hfalsy
  have hsel : selectedModelOf mv = .str defaultModel := by
    rcases hfalsy with rfl | ⟨v, rfl, hv⟩
    · rfl
    · simp [selectedModelOf, jsOr, hv]
  refine ⟨hsel, ?_, ?_, ?_⟩
  · intro messagesV tempV tokV
    cases messagesV <;> simp [chatPayloadFields, lookupField, hsel]
  · intro t
    simp [parsePayloadFields, lookupField, hsel]
  · intro errs hv hmem
    have hprop : propNN body "model" = mv := getFieldE_ok_inv hget
    have hmb : modelBad body = false := by
      unfold modelBad
      rw [hprop]
      rcases hfalsy with rfl | ⟨v, rfl, hv'⟩
      · rfl
      · simp [truthyOpt, hv']
    obtain ⟨msgsErrs, hms, rfl⟩ := validate_ok_split hv
    rw [hmb] at hmem
    simp only [List.mem_append] at hmem
    rcases hmem with h1 | h2 | h3 | h4
    · rcases messagesSection_strings hms modelMsg h1 with h | h | ⟨x, h⟩
      · exact absurd h (by decide)
      · exact absurd h (by decide)
      · exact absurd h.symm (msgBracket_ne x modelMsg (by decide))
    · simp at h2
    · by_cases ht : tempBad body <;> simp [ht] at h3
      exact absurd h3 (by decide)
    · by_cases ht : tokBad body <;> simp [ht] at h4
      exact absurd h4 (by decide)

/-- Witness for C10 at a body whose model is the empty string. -/
theorem falsy_model_defaults_witness :
    selectedModelOf (some (.str "")) = .str defaultModel
    ∧ modelMsg ∉ ([] : List String) := by
  have h := falsy_model_defaults
    (.obj [("messages", .arr [.obj [("role", .str "user"), ("content", .str "hi")]]),
           ("model", .str "")])
    (some (.str "")) rfl (Or.inr ⟨.str "", rfl, rfl⟩)
  exact ⟨h.1, h.2.2.2 [] rfl⟩

/-- C9: a chat request `{messages:[{role:"user",content:"hi"}]}` with no
model field, against an upstream replying
`{choices:[{message:{content:"hello"}}], usage:{total_tokens:5}}`, yields
HTTP 200 with exactly `{success:true, content:"hello",
model:"meta-llama/llama-3.1-8b-instruct:free", usage:{total_tokens:5}}`:
the content is `choices[0].message.content`, the usage object is passed
through verbatim, and the echoed model is the substituted default.  When
the upstream reply has no extractable content, the content falls back to
the empty string. -/
theorem chat_end_to_end :
    chatHandler
        (fun _ => .ok (200,
          .obj [("choices", .arr [.obj [("message", .obj [("content", .str "hello")])]]),
                ("usage", .obj [("total_tokens", .num (.num 5))])]))
        (.obj [("messages", .arr [.obj [("role", .str "user"), ("content", .str "hi")]])]) =
      .ok (200, .obj [("success", .bool true),
                      ("content", .str "hello"),
                      ("model", .str defaultModel),
                      ("usage", .obj [("total_tokens", .num (.num 5))])])
    ∧ chatHandler
        (fun _ => .ok (200,
          .obj [("choices", .arr []),
                ("usage", .obj [("total_tokens", .num (.num 5))])]))
        (.obj [("messages", .arr [.obj [("role", .str "user"), ("content", .str "hi")]])]) =
      .ok (200, .obj [("success", .bool true),
                      ("content", .str ""),
                      ("model", .str defaultModel),
                      ("usage", .obj [("total_tokens", .num (.num 5))])]) :=
  ⟨rfl, rfl⟩

/-- Counterexample for C4: on a transport failure of the upstream call, the
chat route does not produce `CONNECTION_ERROR`; its catch block answers
`{error: 'Failed to process AI request', code: 'SERVER_ERROR'}` with
status 500. -/
theorem connection_error_counterexample :
    chatHandler (fun _ => .error ())
        (.obj [("messages", .arr [.obj [("role", .str "user"), ("content", .str "hi")]])]) =
      .ok (500, .obj [("error", .str "Failed to process AI request"),
                      ("code", .str "SERVER_ERROR")])
    ∧ "SERVER_ERROR" ≠ "CONNECTION_ERROR" :=
  ⟨rfl, by decide⟩

/-- C4 (amended): on a network/transport failure (or a reply whose body
fails to decode), the model-listing route answers 500 with code
`CONNECTION_ERROR`, while the completion paths of /chat and /parse-resume
answer 500 with code `SERVER_ERROR` from their own catch blocks. -/
theorem transport_failure_amended :
    (modelsHandler (.error ()) = (500, connectionErrorBody))
    ∧ (∀ body : Json, validateChatRequest body = .ok [] →
        chatHandler (fun _ => .error ()) body =
          .ok (500, serverErrorBody "Failed to process AI request"))
    ∧ (∀ (bf : List (String × Json)) (t : String) (decode : String → Option Json),
        lookupField bf "text" = some (.str t) → t ≠ "" → t.length ≤ 100000 →
        parseResumeHandler (fun _ => .error ()) decode (.obj bf) =
          .ok (500, serverErrorBody "Failed to parse resume")) := by
  refine ⟨rfl, ?_, ?_⟩
  · intro body hv
    have hb : body ≠ .null := validate_ok_ne_null hv
    unfold chatHandler
    rw [hv]
    simp only [Bind.bind, Except.bind, List.isEmpty_nil, if_true]
    have htb : chatTryBlock (fun _ => .error ()) body = .error () := by
      unfold chatTryBlock
      rw [getFieldE_ok "messages" hb, getFieldE_ok "model" hb,
          getFieldE_ok "temperature" hb, getFieldE_ok "max_tokens" hb]
      simp [Bind.bind, Except.bind]
    rw [htb]
  · intro bf t decode htext htne htlen
    unfold parseResumeHandler
    rw [getFieldE_ok "text" (fun h => Json.noConfusion h),
        getFieldE_ok "model" (fun h => Json.noConfusion h)]
    show ((Except.ok (lookupField bf "text")).bind _ : Except Unit (Nat × Json)) = _
    simp only [Except.bind]
    rw [htext]
    have h1 : (t == "") = false := by
      simp [htne]
    have h2 : ¬(100000 < t.length) := not_lt.mpr htlen
    simp only [h1, Bool.false_eq_true, if_false, if_neg h2]
    rfl

/-- Witness for the amended C4 on a concrete valid chat body. -/
theorem transport_failure_amended_witness :
    chatHandler (fun _ => .error ())
        (.obj [("messages", .arr [.obj [("role", .str "user"), ("content", .str "hi")]])]) =
      .ok (500, serverErrorBody "Failed to process AI request") :=
  transport_failure_amended.2.1
    (.obj [("messages", .arr [.obj [("role", .str "user"), ("content", .str "hi")]])]) rfl

/-- Prefix test characterization. -/
theorem isPre_iff {p l : List Char} : isPre p l = true ↔ ∃ t, p ++ t = l := by
  induction p generalizing l with
  | nil => simp [isPre]
  | cons a as ih =>
    cases l with
    | nil => simp [isPre]
    | cons b bs =>
      simp only [isPre, Bool.and_eq_true, beq_iff_eq, ih, List.cons_append,
        List.cons.injEq]
      constructor
      · rintro ⟨rfl, t, rfl⟩
        exact ⟨t, rfl, rfl⟩
      · rintro ⟨t, rfl, rfl⟩
        exact ⟨rfl, t, rfl⟩

/-- Infix test characterization. -/
theorem hasInfix_iff {p l : List Char} :
    hasInfix p l = true ↔ ∃ u v, u ++ (p ++ v) = l := by
  induction l with
  | nil =>
    simp only [hasInfix, isPre_iff]
    constructor
    · rintro ⟨t, ht⟩
      exact ⟨[], t, ht⟩
    · rintro ⟨u, v, huv⟩
      rcases List.append_eq_nil.mp huv with ⟨-, h2⟩
      exact ⟨v, h2⟩
  | cons c t ih =>
    simp only [hasInfix, Bool.or_eq_true, isPre_iff, ih]
    constructor
    · rintro (⟨w, hw⟩ | ⟨u, v, huv⟩)
      · exact ⟨[], w, hw⟩
      · exact ⟨c :: u, v, by rw [List.cons_append, huv]⟩
    · rintro ⟨u, v, huv⟩
      cases u with
      | nil => exact Or.inl ⟨v, huv⟩
      | cons x xs =>
        rw [List.cons_append] at huv
        injection huv with h1 h2
        exact Or.inr ⟨xs, v, h2⟩

/-- String-level `includes` characterization. -/
theorem strIncludes_iff {s pat : String} :
    strIncludes s pat = true ↔ ∃ a b : String, s = a ++ pat ++ b := by
  unfold strIncludes
  rw [hasInfix_iff]
  constructor
  · rintro ⟨u, v, huv⟩
    refine ⟨⟨u⟩, ⟨v⟩, ?_⟩
    cases s with
    | mk d =>
      simp only at huv
      show String.mk d = String.mk ((u ++ pat.data) ++ v)
      rw [← huv, List.append_assoc]
  · rintro ⟨a, b, rfl⟩
    exact ⟨a.data, b.data, by
      show a.data ++ (pat.data ++ b.data) = ((a.data ++ pat.data) ++ b.data)
      rw [List.append_assoc]⟩

/-- C8: the computed `isFree` of a model entry is true exactly when the id
contains the substring `:free` or both pricing fields equal the literal
string "0"; in particular both-zero pricing suffices without a `:free` id,
and a single zero pricing field with a plain id does not. -/
theorem isFree_spec :
    ∀ m : ModelEntry,
      (isFree m = true ↔
        (∃ a b : String, m.id = a ++ ":free" ++ b) ∨
        (m.pricingPrompt = some "0" ∧ m.pricingCompletion = some "0"))
      ∧ isFree ⟨"x", none, some "0", some "0"⟩ = true
      ∧ isFree ⟨"x", none, some "0", some "1"⟩ = false
      ∧ isFree ⟨"x", none, some "1", some "0"⟩ = false
      ∧ isFree ⟨"x", none, some "0", none⟩ = false
      ∧ isFree ⟨"m:free", none, none, none⟩ = true := by
  intro m
  refine ⟨?_, by decide, by decide, by decide, by decide, by decide⟩
  unfold isFree
  simp only [Bool.or_eq_true, Bool.and_eq_true, beq_iff_eq, strIncludes_iff]

/-- Witness for C8 at a concrete free-by-pricing entry. -/
theorem isFree_spec_witness :
    isFree ⟨"x", none, some "0", some "0"⟩ = true
    ∧ ((∃ a b : String, ("x" : String) = a ++ ":free" ++ b) ∨
        ((some "0" : Option String) = some "0" ∧ (some "0" : Option String) = some "0")) :=
  ⟨(isFree_spec ⟨"x", none, some "0", some "0"⟩).2.1,
   (isFree_spec ⟨"x", none, some "0", some "0"⟩).1.mp
     (isFree_spec ⟨"x", none, some "0", some "0"⟩).2.1⟩

/-- Inserting adds one element. -/
theorem length_jsInsert (c : α → α → Int) (x : α) (l : List α) :
    (jsInsert c x l).length = l.length + 1 := by
  induction l with
  | nil => rfl
  | cons y ys ih =>
    unfold jsInsert
    split
    · rfl
    · simp [ih]

/-- Sorting preserves length. -/
theorem length_jsSort (c : α → α → Int) (l : List α) :
    (jsSort c l).length = l.length := by
  induction l with
  | nil => rfl
  | cons x xs ih => simp [jsSort, length_jsInsert, ih]

/-- Membership in an insertion. -/
theorem mem_jsInsert {c : α → α → Int} {x y : α} {l : List α} :
    y ∈ jsInsert c x l ↔ y = x ∨ y ∈ l := by
  induction l with
  | nil => simp [jsInsert]
  | cons z zs ih =>
    unfold jsInsert
    split
    · simp [or_left_comm, or_assoc]
    · simp only [List.mem_cons, ih]
      tauto

/-- An insertion splits the list at the insertion point; everything before
it compares strictly below the inserted element. -/
theorem jsInsert_decomp (c : α → α → Int) (x : α) (l : List α) :
    ∃ A B, l = A ++ B ∧ jsInsert c x l = A ++ x :: B ∧
      ∀ y ∈ A, ¬(c x y ≤ 0) := by
  induction l with
  | nil => exact ⟨[], [], rfl, rfl, by simp⟩
  | cons y ys ih =>
    by_cases h : c x y ≤ 0
    · exact ⟨[], y :: ys, rfl, by simp [jsInsert, h], by simp⟩
    · obtain ⟨A, B, hl, hins, hA⟩ := ih
      refine ⟨y :: A, B, by simp [hl], ?_, ?_⟩
      · simp [jsInsert, h, hins]
      · intro z hz
        rcases List.mem_cons.mp hz with rfl | hz'
        · exact h
        · exact hA z hz'

/-- The free/non-free partition shape is preserved by insertion with the
models comparator. -/
theorem jsInsert_partition (x : ModelEntry) {l A B : List ModelEntry}
    (hl : l = A ++ B)
    (hA : ∀ m ∈ A, isFree m = true) (hB : ∀ m ∈ B, isFree m = false) :
    ∃ A2 B2, jsInsert modelCmp x l = A2 ++ B2 ∧
      (∀ m ∈ A2, isFree m = true) ∧ (∀ m ∈ B2, isFree m = false) := by
  by_cases hx : isFree x = true
  · subst hl
    induction A with
    | nil =>
      refine ⟨[x], B, ?_, by simp [hx], hB⟩
      cases B with
      | nil => rfl
      | cons b bs =>
        have hcb : modelCmp x b ≤ 0 := by
          unfold modelCmp
          rw [hx, hB b (by simp)]
          simp
        simp [jsInsert, hcb]
    | cons a as ih =>
      have ha : isFree a = true := hA a (by simp)
      by_cases hc : modelCmp x a ≤ 0
      · exact ⟨x :: a :: as, B, by simp [jsInsert, hc], by
          intro m hm
          rcases List.mem_cons.mp hm with rfl | hm'
          · exact hx
          · exact hA m hm', hB⟩
      · obtain ⟨A2, B2, h1, h2, h3⟩ := ih (fun m hm => hA m (by simp [hm]))
        exact ⟨a :: A2, B2, by simp [jsInsert, hc, h1], by
          intro m hm
          rcases List.mem_cons.mp hm with rfl | hm'
          · exact ha
          · exact h2 m hm', h3⟩
  · subst hl
    induction A with
    | nil =>
      refine ⟨[], jsInsert modelCmp x B, rfl, by simp, ?_⟩
      intro m hm
      rcases mem_jsInsert.mp hm with rfl | hm'
      · exact Bool.eq_false_iff.mpr hx
      · exact hB m hm'
    | cons a as ih =>
      have ha : isFree a = true := hA a (by simp)
      have hc : ¬(modelCmp x a ≤ 0) := by
        unfold modelCmp
        rw [ha, Bool.eq_false_iff.mpr hx]
        simp
      obtain ⟨A2, B2, h1, h2, h3⟩ := ih (fun m hm => hA m (by simp [hm]))
      exact ⟨a :: A2, B2, by simp [jsInsert, hc, h1], by
        intro m hm
        rcases List.mem_cons.mp hm with rfl | hm'
        · exact ha
        · exact h2 m hm', h3⟩

/-- The sorted model list is a free block followed by a non-free block. -/
theorem jsSort_partition (l : List ModelEntry) :
    ∃ A B, jsSort modelCmp l = A ++ B ∧
      (∀ m ∈ A, isFree m = true) ∧ (∀ m ∈ B, isFree m = false) := by
  induction l with
  | nil => exact ⟨[], [], rfl, by simp, by simp⟩
  | cons x xs ih =>
    obtain ⟨A, B, hl, hA, hB⟩ := ih
    exact jsInsert_partition x hl hA hB

/-- Codepoint comparison is antisymmetric in sign. -/
theorem strCmpL_neg (u v : List Char) : strCmpL v u = -strCmpL u v := by
  induction u generalizing v with
  | nil => cases v <;> rfl
  | cons a as ih =>
    cases v with
    | nil => rfl
    | cons b bs =>
      unfold strCmpL
      rcases Nat.lt_trichotomy a.toNat b.toNat with h | h | h
      · simp [h, Nat.lt_asymm h]
      · have h1 : ¬a.toNat < b.toNat := by omega
        have h2 : ¬b.toNat < a.toNat := by omega
        simp only [if_neg h1, if_neg h2]
        exact ih bs
      · simp [h, Nat.lt_asymm h]

/-- A zero codepoint comparison means equal character lists. -/
theorem strCmpL_zero {u v : List Char} (h : strCmpL u v = 0) : u = v := by
  induction u generalizing v with
  | nil =>
    cases v with
    | nil => rfl
    | cons b bs => exact absurd h (by simp [strCmpL])
  | cons a as ih =>
    cases v with
    | nil => exact absurd h (by simp [strCmpL])
    | cons b bs =>
      unfold strCmpL at h
      by_cases h1 : a.toNat < b.toNat
      · rw [if_pos h1] at h
        exact absurd h (by decide)
      · by_cases h2 : b.toNat < a.toNat
        · rw [if_neg h1, if_pos h2] at h
          exact absurd h (by decide)
        · rw [if_neg h1, if_neg h2] at h
          have h3 : a.toNat = b.toNat :=
            Nat.le_antisymm (Nat.not_lt.mp h2) (Nat.not_lt.mp h1)
          have hab : a = b := Char.eq_of_val_eq (UInt32.ext h3)
          rw [hab, ih h]

/-- Codepoint comparison is reflexive. -/
theorem strCmpL_refl (u : List Char) : strCmpL u u = 0 := by
  induction u with
  | nil => rfl
  | cons a as ih => simp [strCmpL, ih]

/-- `localeCompare` is antisymmetric in sign. -/
theorem localeCompare_neg (s t : String) : localeCompare t s = -localeCompare s t :=
  strCmpL_neg s.data t.data

/-- A zero `localeCompare` means equal strings. -/
theorem localeCompare_zero {s t : String} (h : localeCompare s t = 0) : s = t := by
  cases s with
  | mk d =>
    cases t with
    | mk e => exact congrArg String.mk (strCmpL_zero h)

/-- `localeCompare` is reflexive. -/
theorem localeCompare_refl (s : String) : localeCompare s s = 0 :=
  strCmpL_refl s.data

/-- The comparator on two entries of equal free-ness is the display-name
comparison. -/
theorem modelCmp_same_free {a b : ModelEntry} (h : isFree a = isFree b) :
    modelCmp a b = localeCompare (displayName a) (displayName b) := by
  unfold modelCmp
  rw [h]
  cases isFree b <;> simp

/-- A free entry compares strictly before a non-free one. -/
theorem modelCmp_free_nonfree {a b : ModelEntry}
    (ha : isFree a = true) (hb : isFree b = false) : modelCmp a b = -1 := by
  unfold modelCmp
  rw [ha, hb]
  rfl

/-- A non-free entry compares strictly after a free one. -/
theorem modelCmp_nonfree_free {a b : ModelEntry}
    (ha : isFree a = false) (hb : isFree b = true) : modelCmp a b = 1 := by
  unfold modelCmp
  rw [ha, hb]
  rfl

/-- The models comparator only answers "after" when the reversed comparison
answers "not after". -/
theorem modelCmp_conn (a b : ModelEntry) (h : ¬(modelCmp a b ≤ 0)) :
    modelCmp b a ≤ 0 := by
  cases ha : isFree a <;> cases hb : isFree b
  · rw [modelCmp_same_free (ha.trans hb.symm)] at h
    rw [modelCmp_same_free (hb.trans ha.symm), localeCompare_neg]
    omega
  · rw [modelCmp_free_nonfree hb ha]
    omega
  · exact absurd (by rw [modelCmp_free_nonfree ha hb]; omega) h
  · rw [modelCmp_same_free (ha.trans hb.symm)] at h
    rw [modelCmp_same_free (hb.trans ha.symm), localeCompare_neg]
    omega

/-- A zero models comparison forces equal free-ness and display name. -/
theorem modelCmp_zero {a b : ModelEntry} (h : modelCmp a b = 0) :
    isFree a = isFree b ∧ displayName a = displayName b := by
  cases ha : isFree a <;> cases hb : isFree b
  · rw [modelCmp_same_free (ha.trans hb.symm)] at h
    exact ⟨rfl, localeCompare_zero h⟩
  · rw [modelCmp_nonfree_free ha hb] at h
    exact absurd h (by decide)
  · rw [modelCmp_free_nonfree ha hb] at h
    exact absurd h (by decide)
  · rw [modelCmp_same_free (ha.trans hb.symm)] at h
    exact ⟨rfl, localeCompare_zero h⟩

/-- Insertion preserves sortedness for a connex comparator. -/
theorem chain_jsInsert {c : α → α → Int}
    (hconn : ∀ a b, ¬(c a b ≤ 0) → c b a ≤ 0) (x : α) :
    ∀ {l : List α}, List.Chain' (fun a b => c a b ≤ 0) l →
      List.Chain' (fun a b => c a b ≤ 0) (jsInsert c x l) := by
  intro l
  induction l with
  | nil => intro _; simp [jsInsert]
  | cons y ys ih =>
    intro hl
    rw [jsInsert]
    by_cases h : c x y ≤ 0
    · rw [if_pos h]
      exact hl.cons h
    · rw [if_neg h]
      have hyx : c y x ≤ 0 := hconn x y h
      have htail := ih hl.tail
      apply List.chain'_cons'.mpr
      refine ⟨?_, htail⟩
      intro z hz
      cases ys with
      | nil =>
        simp [jsInsert] at hz
        subst hz
        exact hyx
      | cons w ws =>
        rw [jsInsert] at hz
        by_cases h2 : c x w ≤ 0
        · rw [if_pos h2] at hz
          simp at hz
          subst hz
          exact hyx
        · rw [if_neg h2] at hz
          simp at hz
          subst hz
          exact (List.chain'_cons.mp hl).1

/-- The sorted output is sorted with respect to the comparator. -/
theorem chain_jsSort {c : α → α → Int}
    (hconn : ∀ a b, ¬(c a b ≤ 0) → c b a ≤ 0) (l : List α) :
    List.Chain' (fun a b => c a b ≤ 0) (jsSort c l) := by
  induction l with
  | nil => simp [jsSort]
  | cons x xs ih => exact chain_jsInsert hconn x ih

/-- Inserting an element preserves the filtered sublist of any class the
element does not belong to, and prepends it to the class it belongs to —
the elementwise form of sort stability. -/
theorem filter_jsInsert {c : α → α → Int} {p : α → Bool} {x : α}
    (hc : ∀ y, p x = true → p y = true → c x y ≤ 0) (l : List α) :
    (jsInsert c x l).filter p =
      if p x then x :: l.filter p else l.filter p := by
  obtain ⟨A, B, hl, hins, hA⟩ := jsInsert_decomp c x l
  rw [hins, hl]
  by_cases hx : p x = true
  · have hAfalse : ∀ y ∈ A, p y = false := by
      intro y hy
      cases hpy : p y with
      | false => rfl
      | true => exact absurd (hc y hx hpy) (hA y hy)
    have hfA : A.filter p = [] := List.filter_eq_nil_iff.mpr (fun y hy => by
      rw [hAfalse y hy]; simp)
    simp [List.filter_append, hfA, hx]
  · have hx' : p x = false := Bool.eq_false_iff.mpr hx
    simp [List.filter_append, List.filter_cons, hx']

/-- Stability of the model sort: within every comparator-equivalence class
the sorted output lists exactly the input elements in their original
order. -/
theorem jsSort_stable (l : List ModelEntry) (k : ModelEntry) :
    (jsSort modelCmp l).filter (fun y => modelCmp y k == 0) =
      l.filter (fun y => modelCmp y k == 0) := by
  induction l with
  | nil => rfl
  | cons x xs ih =>
    have hc : ∀ y, (modelCmp x k == 0) = true → (modelCmp y k == 0) = true →
        modelCmp x y ≤ 0 := by
      intro y hx hy
      obtain ⟨hf1, hd1⟩ := modelCmp_zero (beq_iff_eq.mp hx)
      obtain ⟨hf2, hd2⟩ := modelCmp_zero (beq_iff_eq.mp hy)
      rw [modelCmp_same_free (hf1.trans hf2.symm), hd1, hd2, localeCompare_refl]
    rw [jsSort, filter_jsInsert hc (jsSort modelCmp xs), ih]
    by_cases hx : (modelCmp x k == 0) = true
    · simp [List.filter_cons, hx]
    · simp [List.filter_cons, Bool.eq_false_iff.mpr hx]

/-- C3: for every upstream model list, the models route's output page has
length `min 50 n`; the sorted list is a block of free models followed by a
block of non-free models; adjacent models of equal free-ness are ordered by
the display-name comparison (`name` falling back to `id`); the sort is
stable (each comparator-equivalence class keeps its original order); the
reply's `totalCount` is the full upstream length, not the page length; and
on the three-entry example `[b:free, a, c:free]` the page order is
`b:free, c:free, a`. -/
theorem models_route_spec :
    ∀ ms : List ModelEntry,
      (processModels ms).length = min 50 ms.length
      ∧ (∃ A B, jsSort modelCmp ms = A ++ B ∧
          (∀ m ∈ A, isFree m = true) ∧ (∀ m ∈ B, isFree m = false))
      ∧ List.Chain'
          (fun a b => isFree a = isFree b →
            localeCompare (displayName a) (displayName b) ≤ 0)
          (jsSort modelCmp ms)
      ∧ (∀ k, (jsSort modelCmp ms).filter (fun y => modelCmp y k == 0) =
          ms.filter (fun y => modelCmp y k == 0))
      ∧ propNN (modelsOkResponse ms).2 "totalCount" = some (.num (.num (ms.length : ℚ)))
      ∧ (processModels [⟨"b:free", none, none, none⟩, ⟨"a", none, none, none⟩,
            ⟨"c:free", none, none, none⟩]).map ModelSummary.id = ["b:free", "c:free", "a"] := by
  intro ms
  refine ⟨?_, jsSort_partition ms, ?_, jsSort_stable ms, ?_, by decide⟩
  · unfold processModels
    rw [List.length_map, List.length_take, length_jsSort]
  · have hs := chain_jsSort modelCmp_conn ms
    exact hs.imp (fun {a b} hab heq => by
      rw [modelCmp_same_free heq] at hab
      exact hab)
  · rfl

/-- Witness for C3 at the three-entry example list. -/
theorem models_route_spec_witness :
    (processModels [⟨"b:free", none, none, none⟩, ⟨"a", none, none, none⟩,
        ⟨"c:free", none, none, none⟩]).length =
      min 50 ([⟨"b:free", none, none, none⟩, ⟨"a", none, none, none⟩,
        ⟨"c:free", none, none, none⟩] : List ModelEntry).length :=
  (models_route_spec [⟨"b:free", none, none, none⟩, ⟨"a", none, none, none⟩,
    ⟨"c:free", none, none, none⟩]).1

/-- `dropWhile` splits the list after a satisfying prefix. -/
theorem dropWhile_decomp (p : Char → Bool) (l : List Char) :
    ∃ a, l = a ++ l.dropWhile p ∧ ∀ x ∈ a, p x = true := by
  induction l with
  | nil => exact ⟨[], rfl, by simp⟩
  | cons c t ih =>
    by_cases h : p c = true
    · obtain ⟨a, ha, hall⟩ := ih
      refine ⟨c :: a, ?_, ?_⟩
      · rw [List.dropWhile_cons, if_pos h, List.cons_append, ← ha]
      · intro x hx
        rcases List.mem_cons.mp hx with rfl | hx'
        · exact h
        · exact hall x hx'
    · refine ⟨[], ?_, by simp⟩
      rw [List.dropWhile_cons, if_neg h]
      rfl

/-- The head surviving a `dropWhile` fails the predicate. -/
theorem dropWhile_head_false {p : Char → Bool} {l : List Char} {x : Char}
    {xs : List Char} (h : l.dropWhile p = x :: xs) : p x = false := by
  induction l with
  | nil => exact List.noConfusion h
  | cons c t ih =>
    rw [List.dropWhile_cons] at h
    by_cases hc : p c = true
    · rw [if_pos hc] at h
      exact ih h
    · rw [if_neg hc] at h
      injection h with h1 _
      rw [← h1]
      exact Bool.eq_false_iff.mpr hc

/-- `dropWhile` skips over a fully satisfying prefix. -/
theorem dropWhile_append_all {p : Char → Bool} {a : List Char}
    (h : ∀ x ∈ a, p x = true) (l : List Char) :
    (a ++ l).dropWhile p = l.dropWhile p := by
  induction a with
  | nil => rfl
  | cons c t ih =>
    rw [List.cons_append, List.dropWhile_cons, if_pos (h c (by simp))]
    exact ih (fun x hx => h x (by simp [hx]))

/-- The span extractor answers `some t` exactly when the input decomposes as
a brace-free prefix, an opening brace, a middle, the last closing brace and
a close-brace-free tail — with `t` the span from that first opening brace
through that last closing brace. -/
theorem extractBraceSpanL_iff {l : List Char} {t : List Char} :
    extractBraceSpanL l = some t ↔
      ∃ a m b : List Char, ('{' : Char) ∉ a ∧ ('}' : Char) ∉ b ∧
        t = '{' :: (m ++ ['}']) ∧ l = a ++ (t ++ b) := by
  constructor
  · intro h
    unfold extractBraceSpanL at h
    split at h
    · exact Option.noConfusion h
    · rename_i c rest hd
      have hc : c = '{' := by
        have := dropWhile_head_false hd
        simpa using this
      obtain ⟨a, ha, hall⟩ := dropWhile_decomp (fun c => !(c == '{')) l
      rw [hd] at ha
      have hnotina : ('{' : Char) ∉ a := by
        intro hmem
        have := hall '{' hmem
        simp at this
      split at h
      · exact Option.noConfusion h
      · rename_i revPart hr hne
        obtain ⟨j, hj, hjall⟩ := dropWhile_decomp (fun d => !(d == '}')) rest.reverse
        cases hdd : rest.reverse.dropWhile (fun d => !(d == '}')) with
        | nil => exact absurd hdd hne
        | cons d rr =>
          rw [hdd] at h hj
          have hdch : d = '}' := by
            have := dropWhile_head_false hdd
            simpa using this
          have hnotinj : ('}' : Char) ∉ j := by
            intro hmem
            have := hjall '}' hmem
            simp at this
          injection h with h'
          refine ⟨a, rr.reverse, j.reverse, hnotina, ?_, ?_, ?_⟩
          · simpa using hnotinj
          · rw [← h', hc, hdch]
            simp
          · have hrest : rest = rr.reverse ++ ('}' :: j.reverse) := by
              have h2 : rest.reverse.reverse = (j ++ (d :: rr)).reverse := by
                rw [← hj]
              rw [List.reverse_reverse] at h2
              rw [h2, hdch]
              simp
            rw [ha, hc, hrest, ← h', hc, hdch]
            simp
  · rintro ⟨a, m, b, hna, hnb, rfl, rfl⟩
    have hall : ∀ x ∈ a, (!(x == '{')) = true := by
      intro x hx
      simp only [Bool.not_eq_true', beq_eq_false_iff_ne]
      intro hxe
      exact hna (hxe ▸ hx)
    have h1 : (a ++ (('{' :: (m ++ ['}'])) ++ b)).dropWhile (fun c => !(c == '{')) =
        '{' :: ((m ++ ['}']) ++ b) := by
      rw [dropWhile_append_all hall]
      rw [show (('{' :: (m ++ ['}'])) ++ b) = '{' :: ((m ++ ['}']) ++ b) from rfl]
      rw [List.dropWhile_cons, if_neg (by simp)]
    have hballrev : ∀ x ∈ b.reverse, (!(x == '}')) = true := by
      intro x hx
      simp only [Bool.not_eq_true', beq_eq_false_iff_ne]
      intro hxe
      exact hnb (hxe ▸ List.mem_reverse.mp hx)
    have h2 : ((m ++ ['}']) ++ b).reverse.dropWhile (fun d => !(d == '}')) =
        '}' :: m.reverse := by
      rw [show ((m ++ ['}']) ++ b).reverse = b.reverse ++ ('}' :: m.reverse) by simp]
      rw [dropWhile_append_all hballrev]
      rw [List.dropWhile_cons, if_neg (by simp)]
    unfold extractBraceSpanL
    rw [h1]
    simp only [h2]
    simp

/-- String-level form of the span characterization. -/
theorem extractBraceSpan_iff {content : String} {t : String} :
    extractBraceSpan content = some t ↔
      ∃ a m b : List Char, ('{' : Char) ∉ a ∧ ('}' : Char) ∉ b ∧
        t.data = '{' :: (m ++ ['}']) ∧ content.data = a ++ (t.data ++ b) := by
  unfold extractBraceSpan
  constructor
  · intro h
    cases he : extractBraceSpanL content.data with
    | none => rw [he] at h; exact Option.noConfusion h
    | some u =>
      rw [he] at h
      injection h with h'
      obtain ⟨a, m, b, hna, hnb, hu, hl⟩ := extractBraceSpanL_iff.mp he
      exact ⟨a, m, b, hna, hnb, by rw [← h', hu], by rw [← h', hl]⟩
  · rintro ⟨a, m, b, hna, hnb, ht, hl⟩
    rw [extractBraceSpanL_iff.mpr ⟨a, m, b, hna, hnb, ht, hl⟩]
    cases t with
    | mk d => rfl

/-- C1: the resume-parse reshaper selects exactly the span from the first
opening brace through the last closing brace (characterized by the
decomposition below), and: with no such span it answers 422 with code
`PARSE_ERROR` and the full raw model output in `rawContent`; with a span
that fails to decode it answers 422 `PARSE_ERROR` with the raw output; with
a span that decodes it answers 200 with `success: true`, `data` exactly the
decoded value — no re-validation of its fields, for every decoder and every
decoded value — and `method: "ai"`. -/
theorem parse_reshape_spec :
    ∀ (decode : String → Option Json) (content : String),
      (∀ t, extractBraceSpan content = some t ↔
        ∃ a m b : List Char, ('{' : Char) ∉ a ∧ ('}' : Char) ∉ b ∧
          t.data = '{' :: (m ++ ['}']) ∧ content.data = a ++ (t.data ++ b))
      ∧ (extractBraceSpan content = none →
          parseReshape decode content =
            (422, .obj [("error", .str "AI response did not contain valid JSON"),
                        ("code", .str "PARSE_ERROR"),
                        ("rawContent", .str content)]))
      ∧ (∀ span, extractBraceSpan content = some span → decode span = none →
          parseReshape decode content =
            (422, .obj [("error", .str "Failed to parse AI response as JSON"),
                        ("code", .str "PARSE_ERROR"),
                        ("rawContent", .str content)]))
      ∧ (∀ span parsed, extractBraceSpan content = some span →
          decode span = some parsed →
          parseReshape decode content =
            (200, .obj [("success", .bool true), ("data", parsed),
                        ("method", .str "ai")])) := by
  intro decode content
  refine ⟨fun t => extractBraceSpan_iff, ?_, ?_, ?_⟩
  · intro h
    unfold parseReshape
    rw [h]
  · intro span h hd
    unfold parseReshape
    simp [h, hd]
  · intro span parsed h hd
    unfold parseReshape
    simp [h, hd]

/-- Witness for C1: a span embedded in prose decodes and is answered with
the decoded value. -/
theorem parse_reshape_spec_witness :
    parseReshape (fun s => if s == "{x}" then some (.bool true) else none)
        "a{x}b" =
      (200, .obj [("success", .bool true), ("data", .bool true),
                  ("method", .str "ai")]) :=
  (parse_reshape_spec (fun s => if s == "{x}" then some (.bool true) else none)
      "a{x}b").2.2.2 "{x}" (.bool true) (by decide) rfl
